import Mathlib

/-!
Shallow embedding of `r2d2-postgres` (`src/lib.rs`): an r2d2 pool adapter for
the postgres driver plus a statement-caching connection wrapper.

The external driver (`PostgresConnection` / `PostgresTransaction`) is modelled
as a stateful oracle `Driver` that hands out fresh statement handles (`Nat`
identities for the `Rc<PostgresStatement>` values), records every prepare call
issued to it in `prepLog`, and fails to prepare exactly the queries listed in
`failing`.  `std::collections::LruCache` (the 2014 Rust standard library LRU
map used for the field `stmts`) is modelled as an association list ordered
from least- to most-recently-used, with `get` refreshing recency, `put`
inserting and evicting down to capacity, and `change_capacity` shrinking to
the new capacity; duplicate keys are unrepresentable in the real map, which
appears here as the `keys.Nodup` invariant.  Fallible operations return the
`Except` result together with the post-call state, mirroring the fact that a
failing call on a `&RefCell` connection leaves its state behind.
-/

/-- Error produced by the driver collaborator when preparing or executing a
statement; the payload records the query so that propagation can be observed
to be unchanged. -/
inductive PgError where
  | prepFailed (query : String)
  | execFailed (query : String)
  deriving DecidableEq, Repr

/-- The driver collaborator behind a `Connection` or a `Transaction`:
`nextId` is the next fresh statement identity, `prepLog` the ordered list of
prepare calls issued to the driver, `failing` the queries whose preparation
fails, `execFailing` the queries whose prepared statement fails on execute. -/
structure Driver where
  nextId : Nat
  prepLog : List String
  failing : List String
  execFailing : List String
  deriving DecidableEq, Repr

/-- A prepare call issued to the driver: it is always logged; on success it
returns a fresh statement identity. -/
def Driver.prepare (d : Driver) (q : String) : Except PgError Nat × Driver :=
  if q ∈ d.failing then
    (Except.error (PgError.prepFailed q), { d with prepLog := d.prepLog ++ [q] })
  else
    (Except.ok d.nextId,
      { d with nextId := d.nextId + 1, prepLog := d.prepLog ++ [q] })

/-- First entry of an association list whose key is `q` (the map lookup of
`LruCache::get`, before the recency move). -/
def lookup1 : List (String × Nat) → String → Option (String × Nat)
  | [], _ => none
  | e :: es, q => if e.1 = q then some e else lookup1 es q

/-- Association list with the first entry keyed `q` removed (the unlink step
of the LRU map's move-to-front / insert). -/
def erase1 : List (String × Nat) → String → List (String × Nat)
  | [], _ => []
  | e :: es, q => if e.1 = q then es else e :: erase1 es q

/-- The statement cache `LruCache<String, Rc<PostgresStatement>>`: entries are
ordered least-recently-used first, most-recently-used last. -/
structure LruCache where
  capacity : Nat
  entries : List (String × Nat)
  deriving DecidableEq, Repr

/-- Query texts currently cached, in least- to most-recently-used order. -/
def LruCache.keys (c : LruCache) : List String := c.entries.map Prod.fst

/-- Cache lookup (`LruCache::get`): on a hit the entry is moved to
most-recently-used position and its statement handle returned. -/
def LruCache.get (c : LruCache) (q : String) : Option (Nat × LruCache) :=
  match lookup1 c.entries q with
  | none => none
  | some e => some (e.2, { c with entries := erase1 c.entries q ++ [e] })

/-- Cache insertion (`LruCache::put`): the entry becomes most-recently-used
and least-recently-used entries are evicted while the length exceeds the
capacity. -/
def LruCache.put (c : LruCache) (q : String) (s : Nat) : LruCache :=
  let es := erase1 c.entries q ++ [(q, s)]
  { capacity := c.capacity, entries := es.drop (es.length - c.capacity) }

/-- Capacity change (`LruCache::change_capacity`): least-recently-used entries
are popped until the length fits the new capacity; the popped (released)
entries are returned alongside the shrunk cache. -/
def LruCache.change_capacity (c : LruCache) (n : Nat) :
    List (String × Nat) × LruCache :=
  (c.entries.take (c.entries.length - n),
   { capacity := n, entries := c.entries.drop (c.entries.length - n) })

/-- The statement-caching connection: owns the boxed driver connection `conn`
and the statement cache `stmts`. -/
structure Connection where
  conn : Driver
  stmts : LruCache
  deriving DecidableEq, Repr

/-- `<Connection as GenericConnection>::prepare`: on a cache hit return a new
shared reference to the cached statement (refreshing recency); on a miss,
prepare through the driver and, on success, insert into the cache. -/
def Connection.prepare (c : Connection) (q : String) :
    Except PgError Nat × Connection :=
  match c.stmts.get q with
  | some (s, stmts1) => (Except.ok s, { c with stmts := stmts1 })
  | none =>
    match c.conn.prepare q with
    | (Except.error e, d1) => (Except.error e, { c with conn := d1 })
    | (Except.ok s, d1) => (Except.ok s, { conn := d1, stmts := c.stmts.put q s })

/-- `GenericConnection::execute` default method: prepare, then execute the
prepared statement with the given parameters; the row count is not modelled
(always 0) and parameter values do not influence the modelled outcome. -/
def Connection.execute (c : Connection) (q : String) :
    Except PgError Nat × Connection :=
  match c.prepare q with
  | (Except.error e, c1) => (Except.error e, c1)
  | (Except.ok _, c1) =>
    if q ∈ c1.conn.execFailing then (Except.error (PgError.execFailed q), c1)
    else (Except.ok 0, c1)

/-- Observable resource-release events during `Drop for Connection`. -/
inductive Event where
  | releaseStmt (s : Nat)
  | releaseRawConn
  deriving DecidableEq, Repr

/-- Teardown of a `Connection` as its ordered release trace: the user `drop`
body runs `stmts.change_capacity(0)` (releasing what it evicts), then the
fields drop in declaration order — `conn` (the raw driver connection) first,
then the remains of `stmts`. -/
def Connection.dropEvents (c : Connection) : List Event :=
  let r := c.stmts.change_capacity 0
  (r.1.map (fun e => Event.releaseStmt e.2))
    ++ [Event.releaseRawConn]
    ++ (r.2.entries.map (fun e => Event.releaseStmt e.2))

/-- A transaction: a non-owning back-reference to the parent connection
(modelled by carrying the parent's state) plus the transaction-scoped driver
handle `trans`. -/
structure Transaction where
  conn : Connection
  trans : Driver
  deriving DecidableEq, Repr

/-- `<Transaction as GenericConnection>::prepare`: look the query up in the
parent connection's cache; on a hit return the cached statement; on a miss
prepare through the transaction's own driver handle without inserting the
result into the parent cache. -/
def Transaction.prepare (t : Transaction) (q : String) :
    Except PgError Nat × Transaction :=
  match t.conn.stmts.get q with
  | some (s, stmts1) =>
    (Except.ok s, { t with conn := { t.conn with stmts := stmts1 } })
  | none =>
    match t.trans.prepare q with
    | (Except.error e, d1) => (Except.error e, { t with trans := d1 })
    | (Except.ok s, d1) => (Except.ok s, { t with trans := d1 })

/-- The connection-level error union of the crate. -/
inductive Error where
  | ConnectError (e : String)
  | OtherError (e : PgError)
  deriving DecidableEq, Repr

/-- The plain pool manager: stores the connect-parameter parse result produced
once at construction (`params.into_connect_params()`), never re-parsing. -/
structure PostgresPoolManager where
  params : Except String String
  deriving Repr

/-- `PostgresPoolManager::connect`: a stored parse error is returned
immediately as a `ConnectError`; otherwise the connection factory (the
external `PostgresConnection::connect`) is invoked on the stored parameters
and its error, if any, wrapped as `ConnectError`. -/
def PostgresPoolManager.connect (m : PostgresPoolManager)
    (factory : String → Except String Driver) : Except Error Driver :=
  match m.params with
  | Except.ok p =>
    match factory p with
    | Except.ok d => Except.ok d
    | Except.error e => Except.error (Error.ConnectError e)
  | Except.error e => Except.error (Error.ConnectError e)

/-- Pool configuration: the statement cache capacity (default 10). -/
structure Config where
  statement_pool_size : Nat
  deriving DecidableEq, Repr

/-- `Default for Config`. -/
def Config.default : Config := { statement_pool_size := 10 }

/-- The statement-pooling manager: wraps the plain manager plus a config. -/
structure StatementPoolingManager where
  manager : PostgresPoolManager
  config : Config
  deriving Repr

/-- `StatementPoolingManager::connect`: delegate to the inner manager and wrap
the raw connection in a `Connection` with a freshly empty cache of capacity
`config.statement_pool_size`. -/
def StatementPoolingManager.connect (m : StatementPoolingManager)
    (factory : String → Except String Driver) : Except Error Connection :=
  match m.manager.connect factory with
  | Except.error e => Except.error e
  | Except.ok raw =>
    Except.ok { conn := raw,
                stmts := { capacity := m.config.statement_pool_size, entries := [] } }

/-- A driver with no statements handed out yet and prescribed failure sets. -/
def freshDriver (failing execFailing : List String) : Driver :=
  { nextId := 0, prepLog := [], failing := failing, execFailing := execFailing }

/-- A freshly connected `Connection` with an empty cache of capacity `n`. -/
def freshConn (n : Nat) (failing : List String) : Connection :=
  { conn := freshDriver failing [], stmts := { capacity := n, entries := [] } }

/-- Prepare a sequence of query texts on one connection, threading state. -/
def prepareList (c : Connection) (qs : List String) : Connection :=
  qs.foldl (fun c q => (Connection.prepare c q).2) c

/-! ### Helper lemmas about the association-list primitives -/

theorem lookup1_eq_none_iff (l : List (String × Nat)) (q : String) :
    lookup1 l q = none ↔ ∀ e ∈ l, e.1 ≠ q := by
  induction l with
  | nil => simp [lookup1]
  | cons e es ih =>
    simp only [lookup1]
    split
    · simp_all
    · simp_all

theorem lookup1_some (l : List (String × Nat)) (q : String) (e : String × Nat)
    (h : lookup1 l q = some e) : e.1 = q ∧ e ∈ l := by
  induction l with
  | nil => simp [lookup1] at h
  | cons x xs ih =>
    simp only [lookup1] at h
    split at h
    · cases h
      simp_all
    · rcases ih h with ⟨h1, h2⟩
      exact ⟨h1, List.mem_cons_of_mem _ h2⟩

theorem lookup1_append_of_none (l1 l2 : List (String × Nat)) (q : String)
    (h : lookup1 l1 q = none) : lookup1 (l1 ++ l2) q = lookup1 l2 q := by
  induction l1 with
  | nil => simp
  | cons x xs ih =>
    simp only [lookup1] at h ⊢
    split at h
    · cases h
    · simp_all [lookup1]

theorem lookup1_append_last (l : List (String × Nat)) (e : String × Nat) (q : String)
    (hl : ∀ x ∈ l, x.1 ≠ q) (he : e.1 = q) : lookup1 (l ++ [e]) q = some e := by
  rw [lookup1_append_of_none l [e] q ((lookup1_eq_none_iff l q).mpr hl)]
  simp [lookup1, he]

theorem erase1_of_forall_ne (l : List (String × Nat)) (q : String)
    (h : ∀ e ∈ l, e.1 ≠ q) : erase1 l q = l := by
  induction l with
  | nil => rfl
  | cons x xs ih =>
    simp only [erase1]
    split
    · exact absurd (by assumption) (h x (List.mem_cons_self x xs))
    · simp_all

theorem erase1_subset (l : List (String × Nat)) (q : String) :
    ∀ e ∈ erase1 l q, e ∈ l := by
  induction l with
  | nil => simp [erase1]
  | cons x xs ih =>
    intro e he
    simp only [erase1] at he
    split at he
    · exact List.mem_cons_of_mem _ he
    · rcases List.mem_cons.mp he with h | h
      · exact h ▸ List.mem_cons_self x xs
      · exact List.mem_cons_of_mem _ (ih e h)

theorem erase1_keys_ne (l : List (String × Nat)) (q : String)
    (h : (l.map Prod.fst).Nodup) : ∀ e ∈ erase1 l q, e.1 ≠ q := by
  induction l with
  | nil => simp [erase1]
  | cons x xs ih =>
    intro e he
    simp only [erase1] at he
    have h2 : x.1 ∉ xs.map Prod.fst ∧ (xs.map Prod.fst).Nodup := by
      rw [List.map_cons, List.nodup_cons] at h
      exact h
    rcases h2 with ⟨hx, hxs⟩
    split at he
    · intro hq
      have hxq : x.1 = q := by assumption
      apply hx
      rw [hxq, ← hq]
      exact List.mem_map_of_mem Prod.fst he
    · rcases List.mem_cons.mp he with h1 | h1
      · exact h1 ▸ (by assumption)
      · exact ih hxs e h1

theorem erase1_length_of_mem (l : List (String × Nat)) (q : String)
    (h : q ∈ l.map Prod.fst) : (erase1 l q).length + 1 = l.length := by
  induction l with
  | nil => simp at h
  | cons x xs ih =>
    simp only [erase1]
    split
    · simp
    · have hq : q ∈ xs.map Prod.fst := by
        rcases List.mem_map.mp h with ⟨e, he, hfst⟩
        rcases List.mem_cons.mp he with h1 | h1
        · exact absurd (h1 ▸ hfst) (by assumption)
        · exact hfst ▸ List.mem_map_of_mem Prod.fst h1
      simpa using ih hq

theorem drop_append_single {α : Type} (l : List α) (x : α) (n : Nat)
    (h : n ≤ l.length) : (l ++ [x]).drop n = l.drop n ++ [x] := by
  rw [List.drop_append_eq_append_drop, Nat.sub_eq_zero_of_le h]
  rfl

/-! ### Decomposition lemmas for the prepare paths -/

theorem prepare_hit (c : Connection) (q : String) (e : String × Nat)
    (h : lookup1 c.stmts.entries q = some e) :
    Connection.prepare c q =
      (Except.ok e.2,
       { c with stmts := { c.stmts with entries := erase1 c.stmts.entries q ++ [e] } }) := by
  unfold Connection.prepare LruCache.get
  rw [h]

theorem prepare_miss_ok (c : Connection) (q : String)
    (h : lookup1 c.stmts.entries q = none) (hf : q ∉ c.conn.failing) :
    Connection.prepare c q =
      (Except.ok c.conn.nextId,
       { conn := { c.conn with nextId := c.conn.nextId + 1,
                               prepLog := c.conn.prepLog ++ [q] },
         stmts := c.stmts.put q c.conn.nextId }) := by
  unfold Connection.prepare LruCache.get Driver.prepare
  rw [h]
  simp [hf]

theorem prepare_miss_err (c : Connection) (q : String)
    (h : lookup1 c.stmts.entries q = none) (hf : q ∈ c.conn.failing) :
    Connection.prepare c q =
      (Except.error (PgError.prepFailed q),
       { c with conn := { c.conn with prepLog := c.conn.prepLog ++ [q] } }) := by
  unfold Connection.prepare LruCache.get Driver.prepare
  rw [h]
  simp [hf]

theorem put_entries (C : LruCache) (q : String) (s : Nat) :
    (C.put q s).entries =
      (erase1 C.entries q ++ [(q, s)]).drop
        ((erase1 C.entries q ++ [(q, s)]).length - C.capacity) := rfl

theorem put_capacity (C : LruCache) (q : String) (s : Nat) :
    (C.put q s).capacity = C.capacity := rfl

theorem put_fresh_entries (C : LruCache) (q : String) (s : Nat)
    (h : ∀ e ∈ C.entries, e.1 ≠ q) :
    (C.put q s).entries =
      (C.entries ++ [(q, s)]).drop (C.entries.length + 1 - C.capacity) := by
  rw [put_entries, erase1_of_forall_ne _ _ h]
  simp

theorem lookup1_put_fresh (C : LruCache) (q : String) (s : Nat)
    (hcap : 1 ≤ C.capacity) (hne : ∀ e ∈ C.entries, e.1 ≠ q) :
    lookup1 (C.put q s).entries q = some (q, s) := by
  rw [put_fresh_entries C q s hne,
      drop_append_single _ _ _ (by omega)]
  exact lookup1_append_last _ _ _ (fun x hx => hne x (List.mem_of_mem_drop hx)) rfl

/-! ### Claim theorems -/

/-- C1: for every query text and every connection whose cache has capacity at
least 1 (so the first call's insert is not itself evicted — the claim's "no
intervening eviction" proviso) and nodup cache keys (the LRU-map invariant),
if `prepare q` succeeds with statement identity `s`, then calling `prepare q`
again returns the very same statement identity `s`, and leaves the driver
state completely untouched — in particular the second call issues no prepare
call to the driver. -/
theorem C1_cache_hit_idempotence (c : Connection) (q : String) (s : Nat)
    (hcap : 1 ≤ c.stmts.capacity) (hnodup : c.stmts.keys.Nodup)
    (hok : (Connection.prepare c q).1 = Except.ok s) :
    (Connection.prepare (Connection.prepare c q).2 q).1 = Except.ok s ∧
    (Connection.prepare (Connection.prepare c q).2 q).2.conn
      = (Connection.prepare c q).2.conn := by
  cases h : lookup1 c.stmts.entries q with
  | some e =>
    have h1 := prepare_hit c q e h
    have hs : e.2 = s := by
      rw [h1] at hok
      exact Except.ok.inj hok
    have he1 : e.1 = q := (lookup1_some _ _ _ h).1
    have h2 : lookup1 (Connection.prepare c q).2.stmts.entries q = some e := by
      rw [h1]
      exact lookup1_append_last _ _ _ (erase1_keys_ne c.stmts.entries q hnodup) he1
    have h3 := prepare_hit (Connection.prepare c q).2 q e h2
    constructor
    · rw [h3, hs]
    · rw [h3]
  | none =>
    by_cases hf : q ∈ c.conn.failing
    · rw [prepare_miss_err c q h hf] at hok
      cases hok
    · have h1 := prepare_miss_ok c q h hf
      have hs : c.conn.nextId = s := by
        rw [h1] at hok
        exact Except.ok.inj hok
      have hne : ∀ e ∈ c.stmts.entries, e.1 ≠ q := (lookup1_eq_none_iff _ _).mp h
      have h2 : lookup1 (Connection.prepare c q).2.stmts.entries q
          = some (q, c.conn.nextId) := by
        rw [h1]
        exact lookup1_put_fresh c.stmts q c.conn.nextId hcap hne
      have h3 := prepare_hit (Connection.prepare c q).2 q (q, c.conn.nextId) h2
      constructor
      · rw [h3, hs]
      · rw [h3]

/-- Witness for C1 at a concrete input: capacity 1, fresh connection,
query "A" prepared twice. -/
theorem C1_witness :
    (1 ≤ (freshConn 1 []).stmts.capacity ∧ (freshConn 1 []).stmts.keys.Nodup ∧
     (Connection.prepare (freshConn 1 []) "A").1 = Except.ok 0) ∧
    ((Connection.prepare (Connection.prepare (freshConn 1 []) "A").2 "A").1
        = Except.ok 0 ∧
     (Connection.prepare (Connection.prepare (freshConn 1 []) "A").2 "A").2.conn
        = (Connection.prepare (freshConn 1 []) "A").2.conn) :=
  ⟨⟨by decide, by decide, rfl⟩,
   C1_cache_hit_idempotence (freshConn 1 []) "A" 0 (by decide) (by decide) rfl⟩

/-- C3: with capacity 2, preparing "A", "B", "A", "C" in order on a fresh
connection leaves the cache containing exactly the entries for "A" and "C",
in least- to most-recently-used order. -/
theorem C3_end_to_end_scenario :
    (prepareList (freshConn 2 []) ["A", "B", "A", "C"]).stmts.keys
      = ["A", "C"] := by decide

/-- Helper: at capacity 0 with an empty cache, a prepare call always reaches
the driver (is logged) and leaves the cache empty at capacity 0. -/
theorem prepare_cap0 (c : Connection) (q : String)
    (hcap : c.stmts.capacity = 0) (hempty : c.stmts.entries = []) :
    (Connection.prepare c q).2.conn.prepLog = c.conn.prepLog ++ [q] ∧
    (Connection.prepare c q).2.stmts.capacity = 0 ∧
    (Connection.prepare c q).2.stmts.entries = [] := by
  have hlook : lookup1 c.stmts.entries q = none := by rw [hempty]; rfl
  by_cases hf : q ∈ c.conn.failing
  · rw [prepare_miss_err c q hlook hf]
    exact ⟨rfl, hcap, hempty⟩
  · rw [prepare_miss_ok c q hlook hf]
    refine ⟨rfl, ?_, ?_⟩
    · rw [put_capacity]
      exact hcap
    · rw [put_entries, hempty, hcap]
      rfl

/-- C5: when the query is not cached (so the driver collaborator is
consulted) and the driver fails to prepare it, `prepare` returns exactly the
driver's error, unchanged, and the statement cache is exactly as it was
before the call. -/
theorem C5_prepare_error_leaves_cache (c : Connection) (q : String)
    (hmiss : q ∉ c.stmts.keys) (hf : q ∈ c.conn.failing) :
    (Connection.prepare c q).1 = (Driver.prepare c.conn q).1 ∧
    (Driver.prepare c.conn q).1 = Except.error (PgError.prepFailed q) ∧
    (Connection.prepare c q).2.stmts = c.stmts := by
  have hne : ∀ e ∈ c.stmts.entries, e.1 ≠ q := by
    intro e he hq
    exact hmiss (hq ▸ List.mem_map_of_mem Prod.fst he)
  have h := prepare_miss_err c q ((lookup1_eq_none_iff _ _).mpr hne) hf
  refine ⟨?_, ?_, ?_⟩
  · rw [h]
    unfold Driver.prepare
    simp [hf]
  · unfold Driver.prepare
    simp [hf]
  · rw [h]

/-- Witness for C5 at a concrete input: query "A" fails to prepare on a fresh
connection with capacity 1. -/
theorem C5_witness :
    ("A" ∉ (freshConn 1 ["A"]).stmts.keys ∧
     "A" ∈ (freshConn 1 ["A"]).conn.failing) ∧
    ((Connection.prepare (freshConn 1 ["A"]) "A").1
        = (Driver.prepare (freshConn 1 ["A"]).conn "A").1 ∧
     (Driver.prepare (freshConn 1 ["A"]).conn "A").1
        = Except.error (PgError.prepFailed "A") ∧
     (Connection.prepare (freshConn 1 ["A"]) "A").2.stmts
        = (freshConn 1 ["A"]).stmts) :=
  ⟨⟨by decide, by decide⟩,
   C5_prepare_error_leaves_cache (freshConn 1 ["A"]) "A" (by decide) (by decide)⟩

/-- C7: with capacity 0 (and the correspondingly empty cache), every
`prepare` call issues a fresh prepare call to the driver and no caching takes
effect; in particular the repeated call for the same query text is logged at
the driver again. -/
theorem C7_capacity_zero (c : Connection) (q : String)
    (hcap : c.stmts.capacity = 0) (hempty : c.stmts.entries = []) :
    (Connection.prepare c q).2.conn.prepLog = c.conn.prepLog ++ [q] ∧
    (Connection.prepare c q).2.stmts.capacity = 0 ∧
    (Connection.prepare c q).2.stmts.entries = [] ∧
    (Connection.prepare (Connection.prepare c q).2 q).2.conn.prepLog
      = c.conn.prepLog ++ [q, q] := by
  obtain ⟨h1, h2, h3⟩ := prepare_cap0 c q hcap hempty
  obtain ⟨h4, _, _⟩ := prepare_cap0 (Connection.prepare c q).2 q h2 h3
  refine ⟨h1, h2, h3, ?_⟩
  rw [h4, h1, List.append_assoc]
  rfl

/-- Witness for C7 at a concrete input: capacity 0, query "A" twice. -/
theorem C7_witness :
    ((freshConn 0 []).stmts.capacity = 0 ∧ (freshConn 0 []).stmts.entries = []) ∧
    ((Connection.prepare (freshConn 0 []) "A").2.conn.prepLog = [] ++ ["A"] ∧
     (Connection.prepare (freshConn 0 []) "A").2.stmts.capacity = 0 ∧
     (Connection.prepare (freshConn 0 []) "A").2.stmts.entries = [] ∧
     (Connection.prepare (Connection.prepare (freshConn 0 []) "A").2 "A").2.conn.prepLog
        = [] ++ ["A", "A"]) :=
  ⟨⟨by decide, by decide⟩,
   C7_capacity_zero (freshConn 0 []) "A" (by decide) (by decide)⟩

/-- Helper: `Transaction.prepare` on a parent-cache hit. -/
theorem tprepare_hit (t : Transaction) (q : String) (e : String × Nat)
    (h : lookup1 t.conn.stmts.entries q = some e) :
    Transaction.prepare t q =
      (Except.ok e.2,
       { t with conn := { t.conn with stmts :=
           { t.conn.stmts with
             entries := erase1 t.conn.stmts.entries q ++ [e] } } }) := by
  unfold Transaction.prepare LruCache.get
  rw [h]

/-- Helper: `Transaction.prepare` on a parent-cache miss with a successful
transaction-scoped prepare. -/
theorem tprepare_miss_ok (t : Transaction) (q : String)
    (h : lookup1 t.conn.stmts.entries q = none) (hf : q ∉ t.trans.failing) :
    Transaction.prepare t q =
      (Except.ok t.trans.nextId,
       { t with trans :=
           { t.trans with
             nextId := t.trans.nextId + 1,
             prepLog := t.trans.prepLog ++ [q] } }) := by
  unfold Transaction.prepare LruCache.get Driver.prepare
  rw [h]
  simp [hf]

/-- C4: `Transaction::prepare` first looks the query up in the parent
connection's cache; on a hit it returns the cached statement without touching
the transaction's own driver handle; on a miss it prepares through the
transaction's own driver handle (logged there) and returns the new statement
without inserting it into the parent cache — the parent connection is left
completely unchanged and the query remains uncached. -/
theorem C4_transaction_prepare (t : Transaction) (q : String) :
    (∀ e, lookup1 t.conn.stmts.entries q = some e →
       (Transaction.prepare t q).1 = Except.ok e.2 ∧
       (Transaction.prepare t q).2.trans = t.trans) ∧
    (lookup1 t.conn.stmts.entries q = none → q ∉ t.trans.failing →
       (Transaction.prepare t q).1 = Except.ok t.trans.nextId ∧
       (Transaction.prepare t q).2.trans.prepLog = t.trans.prepLog ++ [q] ∧
       (Transaction.prepare t q).2.conn = t.conn ∧
       q ∉ (Transaction.prepare t q).2.conn.stmts.keys) := by
  constructor
  · intro e h
    rw [tprepare_hit t q e h]
    exact ⟨rfl, rfl⟩
  · intro h hf
    rw [tprepare_miss_ok t q h hf]
    refine ⟨rfl, rfl, rfl, ?_⟩
    intro hmem
    have hmem2 : q ∈ t.conn.stmts.entries.map Prod.fst := hmem
    rcases List.mem_map.mp hmem2 with ⟨e, he, hfst⟩
    exact (lookup1_eq_none_iff _ _).mp h e he hfst

/-- A transaction whose parent connection has "A" cached under handle 5. -/
def tHit : Transaction :=
  { conn := { conn := freshDriver [] [],
              stmts := { capacity := 1, entries := [("A", 5)] } },
    trans := freshDriver [] [] }

/-- A transaction over a fresh parent connection (empty cache). -/
def tMiss : Transaction :=
  { conn := freshConn 1 [], trans := freshDriver [] [] }

/-- Witness for C4: a hit on "A" through `tHit` and a miss on "B" through
`tMiss`, at concrete inputs. -/
theorem C4_witness :
    ((Transaction.prepare tHit "A").1 = Except.ok 5 ∧
     (Transaction.prepare tHit "A").2.trans = tHit.trans) ∧
    ((Transaction.prepare tMiss "B").1 = Except.ok tMiss.trans.nextId ∧
     (Transaction.prepare tMiss "B").2.trans.prepLog = tMiss.trans.prepLog ++ ["B"] ∧
     (Transaction.prepare tMiss "B").2.conn = tMiss.conn ∧
     "B" ∉ (Transaction.prepare tMiss "B").2.conn.stmts.keys) :=
  ⟨(C4_transaction_prepare tHit "A").1 ("A", 5) rfl,
   (C4_transaction_prepare tMiss "B").2 rfl (by decide)⟩

/-- C9: a cache hit performed through `Transaction::prepare` refreshes the
entry's recency in the parent connection's cache — the entry moves to the
most-recently-used position — and the parent cache afterwards is exactly the
cache produced by the same hit on the connection itself. -/
theorem C9_transaction_hit_refreshes (t : Transaction) (q : String)
    (e : String × Nat) (h : lookup1 t.conn.stmts.entries q = some e) :
    (Transaction.prepare t q).1 = Except.ok e.2 ∧
    (Transaction.prepare t q).2.conn.stmts.entries
      = erase1 t.conn.stmts.entries q ++ [e] ∧
    (Transaction.prepare t q).2.conn.stmts
      = (Connection.prepare t.conn q).2.stmts := by
  rw [tprepare_hit t q e h, prepare_hit t.conn q e h]
  exact ⟨rfl, rfl, rfl⟩

/-- Witness for C9 at a concrete input: hit on "A" through `tHit`. -/
theorem C9_witness :
    lookup1 tHit.conn.stmts.entries "A" = some ("A", 5) ∧
    ((Transaction.prepare tHit "A").1 = Except.ok 5 ∧
     (Transaction.prepare tHit "A").2.conn.stmts.entries
        = erase1 tHit.conn.stmts.entries "A" ++ [("A", 5)] ∧
     (Transaction.prepare tHit "A").2.conn.stmts
        = (Connection.prepare tHit.conn "A").2.stmts) :=
  ⟨rfl, C9_transaction_hit_refreshes tHit "A" ("A", 5) rfl⟩

/-- Helper: evicted part of a capacity change. -/
theorem change_capacity_evicted (C : LruCache) (n : Nat) :
    (C.change_capacity n).1 = C.entries.take (C.entries.length - n) := rfl

/-- Helper: cache state after a capacity change. -/
theorem change_capacity_state (C : LruCache) (n : Nat) :
    (C.change_capacity n).2
      = { capacity := n, entries := C.entries.drop (C.entries.length - n) } := rfl

/-- Helper: unfolding of the teardown trace. -/
theorem dropEvents_def (c : Connection) :
    Connection.dropEvents c
      = ((c.stmts.change_capacity 0).1.map (fun e => Event.releaseStmt e.2))
        ++ [Event.releaseRawConn]
        ++ ((c.stmts.change_capacity 0).2.entries.map
              (fun e => Event.releaseStmt e.2)) := rfl

/-- C6: tearing a connection down first forces the cache to capacity zero —
which releases every cached entry — and only then releases the raw driver
connection: the release trace is exactly the cached statements followed by
the raw connection, so every statement release strictly precedes the raw
connection release and no cached statement outlives its connection. -/
theorem C6_teardown_ordering (c : Connection) :
    Connection.dropEvents c
      = (c.stmts.entries.map (fun e => Event.releaseStmt e.2))
        ++ [Event.releaseRawConn] ∧
    ((c.stmts.change_capacity 0).2.capacity = 0 ∧
     (c.stmts.change_capacity 0).2.entries = []) ∧
    (∀ ev ∈ (Connection.dropEvents c).dropLast, ∃ s, ev = Event.releaseStmt s) ∧
    (Connection.dropEvents c).getLast? = some Event.releaseRawConn := by
  have heq : Connection.dropEvents c
      = (c.stmts.entries.map (fun e => Event.releaseStmt e.2))
        ++ [Event.releaseRawConn] := by
    rw [dropEvents_def, change_capacity_evicted, change_capacity_state]
    simp
  refine ⟨heq, ⟨?_, ?_⟩, ?_, ?_⟩
  · rw [change_capacity_state]
  · rw [change_capacity_state]
    simp
  · rw [heq]
    intro ev hev
    rw [List.dropLast_concat] at hev
    rcases List.mem_map.mp hev with ⟨e, _, hef⟩
    exact ⟨e.2, hef.symm⟩
  · rw [heq]
    simp

/-- C8: `connect()` on the pool managers: a stored parameter parse error is
returned immediately as a `ConnectError` (for every factory, i.e. without
consulting parsing or the driver again); otherwise the raw connection opened
by the factory is wrapped — by the statement-pooling manager — in a
`Connection` whose cache is freshly empty with the configured capacity. -/
theorem C8_manager_connect :
    (∀ (m : StatementPoolingManager) (factory : String → Except String Driver)
       (e : String), m.manager.params = Except.error e →
         StatementPoolingManager.connect m factory
           = Except.error (Error.ConnectError e)) ∧
    (∀ (m : StatementPoolingManager) (factory : String → Except String Driver)
       (p : String) (raw : Driver),
       m.manager.params = Except.ok p → factory p = Except.ok raw →
         StatementPoolingManager.connect m factory
           = Except.ok { conn := raw,
                         stmts := { capacity := m.config.statement_pool_size,
                                    entries := [] } }) ∧
    (∀ (m : PostgresPoolManager) (factory : String → Except String Driver)
       (e : String), m.params = Except.error e →
         PostgresPoolManager.connect m factory
           = Except.error (Error.ConnectError e)) := by
  refine ⟨?_, ?_, ?_⟩
  · intro m factory e h
    simp only [StatementPoolingManager.connect, PostgresPoolManager.connect, h]
  · intro m factory p raw h1 h2
    simp only [StatementPoolingManager.connect, PostgresPoolManager.connect, h1, h2]
  · intro m factory e h
    simp only [PostgresPoolManager.connect, h]

/-- A statement-pooling manager whose stored parameters failed to parse. -/
def mErr : StatementPoolingManager :=
  { manager := { params := Except.error "bad params" },
    config := { statement_pool_size := 7 } }

/-- A statement-pooling manager with successfully parsed parameters. -/
def mOk : StatementPoolingManager :=
  { manager := { params := Except.ok "host" },
    config := { statement_pool_size := 7 } }

/-- A connection factory that always succeeds with a fresh driver. -/
def factoryOk : String → Except String Driver := fun _ => Except.ok (freshDriver [] [])

/-- Witness for C8 at concrete inputs. -/
theorem C8_witness :
    StatementPoolingManager.connect mErr factoryOk
        = Except.error (Error.ConnectError "bad params") ∧
    StatementPoolingManager.connect mOk factoryOk
        = Except.ok { conn := freshDriver [] [],
                      stmts := { capacity := 7, entries := [] } } ∧
    PostgresPoolManager.connect mErr.manager factoryOk
        = Except.error (Error.ConnectError "bad params") :=
  ⟨C8_manager_connect.1 mErr factoryOk "bad params" rfl,
   C8_manager_connect.2.1 mOk factoryOk "host" (freshDriver [] []) rfl rfl,
   C8_manager_connect.2.2 mErr.manager factoryOk "bad params" rfl⟩

/-- Helper: `execute` when prepare succeeded but the statement execution
fails. -/
theorem execute_prep_ok_exec_fail (c : Connection) (q : String) (s : Nat)
    (c1 : Connection) (h1 : Connection.prepare c q = (Except.ok s, c1))
    (hexec : q ∈ c1.conn.execFailing) :
    Connection.execute c q = (Except.error (PgError.execFailed q), c1) := by
  unfold Connection.execute
  rw [h1]
  simp [hexec]

/-- C10: when an uncached query prepares successfully but its execution
fails, `execute` returns the execution error while the newly prepared
statement stays inserted in the cache (capacity at least 1, so the insert is
not immediately evicted). -/
theorem C10_execute_failure_keeps_cache (c : Connection) (q : String)
    (hcap : 1 ≤ c.stmts.capacity) (hmiss : q ∉ c.stmts.keys)
    (hprep : q ∉ c.conn.failing) (hexec : q ∈ c.conn.execFailing) :
    (Connection.execute c q).1 = Except.error (PgError.execFailed q) ∧
    q ∈ (Connection.execute c q).2.stmts.keys := by
  have hne : ∀ e ∈ c.stmts.entries, e.1 ≠ q := by
    intro e he hq
    exact hmiss (hq ▸ List.mem_map_of_mem Prod.fst he)
  have h1 := prepare_miss_ok c q ((lookup1_eq_none_iff _ _).mpr hne) hprep
  have hl2 := lookup1_put_fresh c.stmts q c.conn.nextId hcap hne
  have hmem : q ∈ (c.stmts.put q c.conn.nextId).keys := by
    have h3 := lookup1_some _ _ _ hl2
    exact List.mem_map_of_mem Prod.fst h3.2
  have h2 := execute_prep_ok_exec_fail c q c.conn.nextId _ h1 hexec
  rw [h2]
  exact ⟨rfl, hmem⟩

/-- A fresh connection whose driver prepares "A" fine but fails executing
it. -/
def cExec : Connection :=
  { conn := freshDriver [] ["A"], stmts := { capacity := 1, entries := [] } }

/-- Witness for C10 at a concrete input. -/
theorem C10_witness :
    (1 ≤ cExec.stmts.capacity ∧ "A" ∉ cExec.stmts.keys ∧
     "A" ∉ cExec.conn.failing ∧ "A" ∈ cExec.conn.execFailing) ∧
    ((Connection.execute cExec "A").1 = Except.error (PgError.execFailed "A") ∧
     "A" ∈ (Connection.execute cExec "A").2.stmts.keys) :=
  ⟨⟨by decide, by decide, by decide, by decide⟩,
   C10_execute_failure_keeps_cache cExec "A" (by decide) (by decide)
     (by decide) (by decide)⟩

/-- Helper: one step of `prepareList`. -/
theorem prepareList_cons (c : Connection) (q : String) (qs : List String) :
    prepareList c (q :: qs) = prepareList (Connection.prepare c q).2 qs := rfl

/-- Helper: `prepareList` over an append. -/
theorem prepareList_append (c : Connection) (qs1 qs2 : List String) :
    prepareList c (qs1 ++ qs2) = prepareList (prepareList c qs1) qs2 := by
  unfold prepareList
  exact List.foldl_append _ _ _ _

/-- Helper: preparing distinct, fresh, successfully-preparing queries that
all fit below capacity appends them to the cache in order, with no eviction;
capacity and the driver failure set are unchanged. -/
theorem prepareList_fill (qs : List String) (c : Connection)
    (hnodup : qs.Nodup)
    (hf : ∀ q ∈ qs, q ∉ c.conn.failing)
    (hfresh : ∀ q ∈ qs, q ∉ c.stmts.keys)
    (hlen : c.stmts.entries.length + qs.length ≤ c.stmts.capacity) :
    (prepareList c qs).stmts.capacity = c.stmts.capacity ∧
    (prepareList c qs).stmts.keys = c.stmts.keys ++ qs ∧
    (prepareList c qs).conn.failing = c.conn.failing := by
  induction qs generalizing c with
  | nil => simp [prepareList]
  | cons q qs ih =>
    have hq_notin : q ∉ c.stmts.keys := hfresh q (List.mem_cons_self q qs)
    have hne : ∀ e ∈ c.stmts.entries, e.1 ≠ q := by
      intro e he hq
      exact hq_notin (hq ▸ List.mem_map_of_mem Prod.fst he)
    have hqf : q ∉ c.conn.failing := hf q (List.mem_cons_self q qs)
    have h1 := prepare_miss_ok c q ((lookup1_eq_none_iff _ _).mpr hne) hqf
    have hlen2 : c.stmts.entries.length + (qs.length + 1) ≤ c.stmts.capacity := hlen
    have hlen1 : c.stmts.entries.length + 1 ≤ c.stmts.capacity := by omega
    have hentries : (Connection.prepare c q).2.stmts.entries
        = c.stmts.entries ++ [(q, c.conn.nextId)] := by
      rw [h1]
      show (c.stmts.put q c.conn.nextId).entries = _
      rw [put_fresh_entries _ _ _ hne, Nat.sub_eq_zero_of_le hlen1]
      rfl
    have hcap1 : (Connection.prepare c q).2.stmts.capacity = c.stmts.capacity := by
      rw [h1]
      exact put_capacity _ _ _
    have hkeys1 : (Connection.prepare c q).2.stmts.keys = c.stmts.keys ++ [q] := by
      show (Connection.prepare c q).2.stmts.entries.map Prod.fst
          = c.stmts.entries.map Prod.fst ++ [q]
      rw [hentries, List.map_append]
      rfl
    have hfail1 : (Connection.prepare c q).2.conn.failing = c.conn.failing := by
      rw [h1]
    obtain ⟨hnq, hnd⟩ := List.nodup_cons.mp hnodup
    have ihres := ih (Connection.prepare c q).2 hnd
      (fun x hx => by
        rw [hfail1]
        exact hf x (List.mem_cons_of_mem _ hx))
      (fun x hx => by
        rw [hkeys1]
        intro hmem
        rcases List.mem_append.mp hmem with h | h
        · exact hfresh x (List.mem_cons_of_mem _ hx) h
        · exact hnq ((List.mem_singleton.mp h) ▸ hx))
      (by
        rw [hentries, hcap1]
        have hl3 : (c.stmts.entries ++ [(q, c.conn.nextId)]).length
            = c.stmts.entries.length + 1 := by simp
        rw [hl3]
        omega)
    rw [prepareList_cons]
    refine ⟨?_, ?_, ?_⟩
    · rw [ihres.1, hcap1]
    · rw [ihres.2.1, hkeys1, List.append_assoc]
      rfl
    · rw [ihres.2.2, hfail1]

/-- Counterexample to C2 as stated: at capacity N = 1 the protection clause
fails.  On a fresh capacity-1 connection, prepare "A" (insert at capacity),
prepare "A" again (a hit that refreshes its recency), then prepare "B": the
hit entry "A" is nevertheless the one evicted by the next insert at
capacity, because it is the only (hence least-recently-accessed) entry. -/
theorem C2_counterexample :
    "A" ∈ (prepareList (freshConn 1 []) ["A", "A"]).stmts.keys ∧
    "A" ∉ (prepareList (freshConn 1 []) ["A", "A", "B"]).stmts.keys := by
  decide

/-- C2, amended: (a) with capacity N ≥ 1, preparing N + 1 distinct,
successfully-preparing query texts in sequence on a fresh connection evicts
exactly the least-recently-accessed entry (the first query) and no other —
the cache afterwards holds exactly the last N queries in order; (b) when the
cache holds at least two entries (capacity N ≥ 2, cache full), a prepare that
hits an existing entry refreshes its recency, so that entry is not the one
evicted by the next insert at capacity.  (The original claim asserted clause
(b) for every N ≥ 1; it fails at N = 1, where the refreshed entry is the
only — hence still least-recently-accessed — entry.) -/
theorem C2_lru_eviction_amended :
    (∀ (n : Nat) (failing qs : List String), 1 ≤ n → qs.Nodup →
       qs.length = n + 1 → (∀ q ∈ qs, q ∉ failing) →
       (prepareList (freshConn n failing) qs).stmts.keys = qs.drop 1) ∧
    (∀ (c : Connection) (qp qn : String), 2 ≤ c.stmts.capacity →
       c.stmts.entries.length = c.stmts.capacity →
       qp ∈ c.stmts.keys → qn ∉ c.stmts.keys → qn ∉ c.conn.failing →
       qp ∈ (Connection.prepare (Connection.prepare c qp).2 qn).2.stmts.keys) := by
  constructor
  · intro n failing qs hn hnodup hlen hq
    have hne0 : qs ≠ [] := by
      intro h
      rw [h] at hlen
      simp at hlen
    obtain ⟨ys, z, rfl⟩ : ∃ ys z, qs = ys ++ [z] :=
      ⟨qs.dropLast, qs.getLast hne0, (List.dropLast_append_getLast hne0).symm⟩
    have hyslen : ys.length = n := by
      rw [List.length_append] at hlen
      simpa using hlen
    obtain ⟨hys_nodup, _, hdisj⟩ := List.nodup_append.mp hnodup
    have hfill := prepareList_fill ys (freshConn n failing) hys_nodup
      (fun x hx => hq x (List.mem_append_left _ hx))
      (fun x _ => by simp [freshConn, LruCache.keys])
      (by
        simp only [freshConn]
        simp [hyslen])
    have hc1keys : (prepareList (freshConn n failing) ys).stmts.keys = ys := by
      rw [hfill.2.1]
      rfl
    have hc1cap : (prepareList (freshConn n failing) ys).stmts.capacity = n := hfill.1
    have hc1fail : (prepareList (freshConn n failing) ys).conn.failing = failing :=
      hfill.2.2
    have hzfresh : z ∉ (prepareList (freshConn n failing) ys).stmts.keys := by
      rw [hc1keys]
      exact fun hmem => hdisj hmem (List.mem_singleton_self z)
    have hzne : ∀ e ∈ (prepareList (freshConn n failing) ys).stmts.entries,
        e.1 ≠ z := by
      intro e he hz
      exact hzfresh (hz ▸ List.mem_map_of_mem Prod.fst he)
    have hzf : z ∉ (prepareList (freshConn n failing) ys).conn.failing := by
      rw [hc1fail]
      exact hq z (List.mem_append_right _ (List.mem_singleton_self z))
    have h1 := prepare_miss_ok (prepareList (freshConn n failing) ys) z
      ((lookup1_eq_none_iff _ _).mpr hzne) hzf
    have hlen1 : (prepareList (freshConn n failing) ys).stmts.entries.length = n := by
      have h2 := congrArg List.length hc1keys
      simpa [LruCache.keys, hyslen] using h2
    rw [prepareList_append,
        show prepareList (prepareList (freshConn n failing) ys) [z]
            = (Connection.prepare (prepareList (freshConn n failing) ys) z).2
          from rfl]
    show (Connection.prepare (prepareList (freshConn n failing) ys) z).2.stmts.entries.map
        Prod.fst = _
    rw [h1]
    show ((prepareList (freshConn n failing) ys).stmts.put z
        (prepareList (freshConn n failing) ys).conn.nextId).entries.map Prod.fst = _
    rw [put_fresh_entries _ _ _ hzne, hlen1, hc1cap,
        show n + 1 - n = 1 by omega,
        drop_append_single _ _ _ (by rw [hlen1]; omega),
        List.map_append, List.map_drop,
        show (prepareList (freshConn n failing) ys).stmts.entries.map Prod.fst = ys
          from hc1keys,
        drop_append_single ys z 1 (by omega)]
    rfl
  · intro c qp qn hcap hfull hqp hqn hqnf
    obtain ⟨e, he⟩ : ∃ e, lookup1 c.stmts.entries qp = some e := by
      cases h : lookup1 c.stmts.entries qp with
      | some e => exact ⟨e, rfl⟩
      | none =>
        exfalso
        rcases List.mem_map.mp (show qp ∈ c.stmts.entries.map Prod.fst from hqp)
          with ⟨x, hx, hxf⟩
        exact (lookup1_eq_none_iff _ _).mp h x hx hxf
    have he1 : e.1 = qp := (lookup1_some _ _ _ he).1
    have h1 := prepare_hit c qp e he
    have hent1 : (Connection.prepare c qp).2.stmts.entries
        = erase1 c.stmts.entries qp ++ [e] := by rw [h1]
    have hcap1 : (Connection.prepare c qp).2.stmts.capacity = c.stmts.capacity := by
      rw [h1]
    have hconn1 : (Connection.prepare c qp).2.conn = c.conn := by rw [h1]
    have herlen : (erase1 c.stmts.entries qp).length + 1 = c.stmts.entries.length :=
      erase1_length_of_mem _ _ hqp
    have hqn1 : ∀ x ∈ (Connection.prepare c qp).2.stmts.entries, x.1 ≠ qn := by
      rw [hent1]
      intro x hx
      rcases List.mem_append.mp hx with h | h
      · exact fun hq =>
          hqn (hq ▸ List.mem_map_of_mem Prod.fst (erase1_subset _ _ x h))
      · rw [List.mem_singleton.mp h, he1]
        intro hq
        exact hqn (hq ▸ hqp)
    have h2 := prepare_miss_ok (Connection.prepare c qp).2 qn
      ((lookup1_eq_none_iff _ _).mpr hqn1) (by rw [hconn1]; exact hqnf)
    have hlen1 : (Connection.prepare c qp).2.stmts.entries.length
        = c.stmts.capacity := by
      rw [hent1]
      simp only [List.length_append, List.length_singleton]
      omega
    show qp ∈ (Connection.prepare (Connection.prepare c qp).2 qn).2.stmts.entries.map
        Prod.fst
    rw [h2]
    show qp ∈ ((Connection.prepare c qp).2.stmts.put qn
        (Connection.prepare c qp).2.conn.nextId).entries.map Prod.fst
    rw [put_fresh_entries _ _ _ hqn1, hlen1, hcap1,
        show c.stmts.capacity + 1 - c.stmts.capacity = 1 by omega,
        drop_append_single _ _ _ (by rw [hlen1]; omega),
        hent1,
        drop_append_single _ _ _ (by omega),
        List.map_append, List.map_append]
    apply List.mem_append_left
    apply List.mem_append_right
    rw [show [e].map Prod.fst = [qp] by rw [List.map_singleton, he1]]
    exact List.mem_singleton_self qp

/-- A full capacity-2 connection holding "A" (least-recently-used) and "B". -/
def cFull : Connection :=
  { conn := freshDriver [] [],
    stmts := { capacity := 2, entries := [("A", 0), ("B", 1)] } }

/-- Witness for the amended C2: part (a) at N = 1 with queries "A", "B";
part (b) on `cFull`, hitting "A" and then inserting "C". -/
theorem C2_witness :
    ((1 ≤ 1 ∧ (["A", "B"] : List String).Nodup ∧
      (["A", "B"] : List String).length = 1 + 1) ∧
     (prepareList (freshConn 1 []) ["A", "B"]).stmts.keys
        = (["A", "B"] : List String).drop 1) ∧
    ((2 ≤ cFull.stmts.capacity ∧
      cFull.stmts.entries.length = cFull.stmts.capacity ∧
      "A" ∈ cFull.stmts.keys ∧ "C" ∉ cFull.stmts.keys) ∧
     "A" ∈ (Connection.prepare (Connection.prepare cFull "A").2 "C").2.stmts.keys) :=
  ⟨⟨⟨by decide, by decide, by decide⟩,
    C2_lru_eviction_amended.1 1 [] ["A", "B"] (by decide) (by decide) (by decide)
      (by decide)⟩,
   ⟨⟨by decide, by decide, by decide, by decide⟩,
    C2_lru_eviction_amended.2 cFull "A" "C" (by decide) (by decide) (by decide)
      (by decide) (by decide)⟩⟩
